import Mathlib

/-!
# Verification of the RAG chat pipeline (hackathon-backend)

Shallow embedding of the two-stage RAG orchestration pipeline:

* `app/chat/services/gemini_service.py` — `_extract_siglas`, `_generate_text`,
  `classify_relevant_courses`, the answer-generation prompt and its
  last-user-message scan;
* `app/chat/services/chat_service.py` — `AVAILABLE_COURSES`, `process_chat`;
* `app/database/queries.py` — `find_many`, `get_courses_by_course_code`.

Python strings are modelled as lists of Unicode code points (`List Nat`);
`pstr` converts a Lean string literal.  `str.upper` is modelled per code
point (ASCII case mapping), which is exact for the course codes and the
classifier post-processing this file reasons about.  Python `set`s are
modelled as deduplicated lists; no theorem below depends on the iteration
order, which CPython leaves unspecified.  Fallible calls return
`Except Unit`; external collaborators (the Gemini provider, the MongoDB
repository) enter as explicit parameters: the provider as the raw text it
returns (`Option PyStr`, `none` = no text field), the repository as the
stored documents plus a per-code failure flag.
-/

/-- A Python string: its sequence of Unicode code points. -/
abbrev PyStr := List Nat

/-- Code points of a string literal. -/
def pstr (s : String) : PyStr := s.data.map Char.toNat

/-- Python `str.strip` whitespace class (ASCII part): space, `\t`, `\n`,
`\r`, `\x0b`, `\x0c`. -/
def isPySpace (c : Nat) : Bool :=
  c == 32 || c == 9 || c == 10 || c == 13 || c == 11 || c == 12

/-- Python `str.upper`, per code point (ASCII case mapping). -/
def pyUpperChar (c : Nat) : Nat := if 97 ≤ c ∧ c ≤ 122 then c - 32 else c

/-- Python `str.upper` on a whole string. -/
def pyUpper (s : PyStr) : PyStr := s.map pyUpperChar

/-- Python `str.lstrip` (no argument). -/
def pyStripLeft (s : PyStr) : PyStr := s.dropWhile isPySpace

/-- Python `str.rstrip` (no argument). -/
def pyStripRight (s : PyStr) : PyStr := (s.reverse.dropWhile isPySpace).reverse

/-- Python `str.strip` (no argument): drop whitespace at both ends. -/
def pyStrip (s : PyStr) : PyStr := pyStripRight (pyStripLeft s)

/-- Python `str.split(sep)` for a one-character separator: every occurrence
splits, empty parts are kept (`"a,,b".split(",") = ["a","","b"]`,
`"".split(",") = [""]`). -/
def splitOnC (sep : Nat) : PyStr → List PyStr
  | [] => [[]]
  | c :: rest =>
    if c == sep then [] :: splitOnC sep rest
    else
      match splitOnC sep rest with
      | [] => [[c]]
      | h :: t => (c :: h) :: t

/-- Python regex `\w` (ASCII part): letters, digits, underscore. -/
def isWordChar (c : Nat) : Bool :=
  (65 ≤ c && c ≤ 90) || (97 ≤ c && c ≤ 122) || (48 ≤ c && c ≤ 57) || c == 95

/-- Whether position `i` of `text` holds a word character (out of range:
no). -/
def wAt (text : PyStr) (i : Nat) : Bool := isWordChar (text.getD i 0)

/-- Python regex `\b` at position `p` of `text`: the word-ness changes
between the character before `p` and the one at `p`, the outside of the
string counting as non-word. -/
def boundaryAt (text : PyStr) (p : Nat) : Bool :=
  (if p = 0 then false else wAt text (p - 1)) != wAt text p

/-- The literal `pat` occurs in `text` starting at position `i`. -/
def matchAt (pat text : PyStr) (i : Nat) : Bool :=
  decide (i + pat.length ≤ text.length) &&
    (List.range pat.length).all (fun j => text.getD (i + j) 0 == pat.getD j 0)

/-- Python `re.search(r'\b' + re.escape(pat) + r'\b', text) is not None`:
the escaped pattern is a literal, so this is a whole-word occurrence of
`pat` anywhere in `text`. -/
def wordSearch (pat text : PyStr) : Bool :=
  (List.range (text.length + 1)).any
    (fun i => matchAt pat text i && boundaryAt text i && boundaryAt text (i + pat.length))

/-! ## `GeminiService._extract_siglas` (gemini_service.py lines 192-232) -/

/-- The closed set of known codes: `all_siglas` in `_extract_siglas`.
For each course row `[name, sigla1, sigla2, ...]` with more than one
element, every `sigla.upper()` is added to a Python set; modelled as a
deduplicated list. -/
def all_siglas (available_courses : List (List PyStr)) : List PyStr :=
  (available_courses.flatMap
    (fun course => if 1 < course.length then (course.drop 1).map pyUpper else [])).dedup

/-- The cleaning applied to one comma-separated token before the
membership check: `s.strip().upper()` in the list comprehension, then
`sigla.strip().replace(".", "").replace(" ", "")` in the loop.  The two
`replace`s delete every period and every space, interior ones included. -/
def clean_token (s : PyStr) : PyStr :=
  (((pyStrip (pyUpper (pyStrip s))).filter (fun c => !(c == 46))).filter (fun c => !(c == 32)))

/-- Pass 1 of `_extract_siglas`: split the normalized response on commas
(code point 44), clean each token, keep it only if it is a known code. -/
def comma_pass (r : PyStr) (alls : List PyStr) : List PyStr :=
  ((splitOnC 44 r).map clean_token).filter (fun s => decide (s ∈ alls))

/-- Pass 2 of `_extract_siglas`: keep every known code that occurs as a
whole-word match in the normalized response. -/
def scan_pass (r : PyStr) (alls : List PyStr) : List PyStr :=
  alls.filter (fun s => wordSearch s r)

/-- `_extract_siglas(response, available_courses)`: empty response gives
`[]`; otherwise normalize (`strip` then `upper`), compute the known-code
set, and run the comma pass, falling back to the whole-word scan exactly
when the comma pass found nothing; the result is deduplicated
(`list(set(found_siglas))`). -/
def extract_siglas (response : PyStr) (available_courses : List (List PyStr)) : List PyStr :=
  if response = [] then []
  else
    let r := pyUpper (pyStrip response)
    let alls := all_siglas available_courses
    if alls = [] then []
    else
      let found₁ := if 44 ∈ r then comma_pass r alls else []
      let found := if found₁ = [] then scan_pass r alls else found₁
      found.dedup

/-! ## LLM provider and the stage calls (gemini_service.py) -/

/-- `GeminiService._generate_text` (lines 234-262), given the provider's
raw outcome: `none` models a Gemini response with neither a `text` field
nor candidates (`ValueError` raised), `some t` the returned text.  An
empty or all-whitespace text raises (`ValueError("Respuesta vacía de
Gemini")`); otherwise the stripped text is returned. -/
def generate_text (raw : Option PyStr) : Except Unit PyStr :=
  match raw with
  | none => .error ()
  | some t => if t = [] ∨ pyStrip t = [] then .error () else .ok (pyStrip t)

/-- `GeminiService.classify_relevant_courses` (lines 20-74): one provider
call, then `_extract_siglas` on its text; any exception is re-raised. -/
def classify_relevant_courses (raw : Option PyStr) (available_courses : List (List PyStr)) :
    Except Unit (List PyStr) :=
  match generate_text raw with
  | .error e => .error e
  | .ok response => .ok (extract_siglas response available_courses)

/-- A chat message (schema `Message`: `role` and `content` strings). -/
structure Msg where
  role : PyStr
  content : PyStr
deriving DecidableEq

/-- The last-user-message scan of `GeminiService.generate_response`
(lines 103-108): walk `reversed(conversation)`, take the first message
whose role is `"user"`, defaulting to the empty string. -/
def last_user_message (conversation : List Msg) : PyStr :=
  match conversation.reverse.find? (fun m => m.role == pstr "user") with
  | some m => m.content
  | none => []

/-- Answer-generation prompt text before the rendered courses context. -/
def genPromptPre : PyStr :=
  pstr "Eres un asistente académico que responde preguntas sobre cursos universitarios usando SOLO la información proporcionada.\n\nINFORMACIÓN DE CURSOS DISPONIBLE:\n"

/-- Answer-generation prompt text between the courses context and the
question. -/
def genPromptMid : PyStr := pstr "\n\nÚLTIMA PREGUNTA DEL USUARIO:\n"

/-- Answer-generation prompt text after the question. -/
def genPromptPost : PyStr :=
  pstr "\n\nINSTRUCCIONES CRÍTICAS:\n- Responde SOLO usando la información de cursos proporcionada arriba\n- Si la información no está en el contexto, di \"No tengo esa información específica disponible\"\n- Sé BREVE: máximo 3-4 oraciones\n- Responde directamente la pregunta, sin introducciones largas\n- Usa datos concretos del contexto (nombres, siglas, ratings, etc.)\n- Responde en el mismo idioma del usuario\n\nRESPUESTA BREVE:"

/-- The RAG prompt f-string of `GeminiService.generate_response`
(lines 110-126), with the already-rendered courses context
(`courses_context_text`) as a parameter. -/
def gen_prompt (courses_context_text : PyStr) (conversation : List Msg) : PyStr :=
  genPromptPre ++ courses_context_text ++ genPromptMid
    ++ last_user_message conversation ++ genPromptPost

/-! ## Repository (database/queries.py) and orchestrator (chat_service.py) -/

/-- A document of the `cursos_filtrados` collection, as far as the claims
need it: its `course_code` field plus an opaque payload standing for the
remaining fields. -/
structure CourseRec where
  course_code : PyStr
  payload : Nat
deriving DecidableEq

/-- `find_many` (queries.py lines 62-98) on the filter
`{"course_code": code}`: filter the collection, apply `cursor.limit`
when the limit is truthy, then `to_list(length=limit or 1000)`. -/
def find_many (docs : List CourseRec) (code : PyStr) (limit : Option Nat) : List CourseRec :=
  let results := docs.filter (fun d => d.course_code == code)
  match limit with
  | some n => if n = 0 then results.take 1000 else results.take n
  | none => results.take 1000

/-- `get_courses_by_course_code` (queries.py lines 155-171).  `fails`
models the external repository raising (connection or query error) for a
given code; on success the query is `find_many` on `course_code`. -/
def get_courses_by_course_code (docs : List CourseRec) (fails : PyStr → Bool)
    (code : PyStr) (limit : Option Nat) : Except Unit (List CourseRec) :=
  if fails code then .error () else .ok (find_many docs code limit)

/-- Step 2 of `ChatService.process_chat` (chat_service.py lines 68-77):
for each relevant code, `get_courses_by_course_code(sigla, limit=5)`
inside `try`/`except`/`continue`; successful lookups extend the
accumulating context, failing ones are logged and skipped.  (The
`if relevant_siglas:` guard is the empty fold.) -/
def retrieve_context (docs : List CourseRec) (fails : PyStr → Bool)
    (relevant_siglas : List PyStr) : List CourseRec :=
  relevant_siglas.foldl
    (fun acc sigla =>
      match get_courses_by_course_code docs fails sigla (some 5) with
      | .ok courses => acc ++ courses
      | .error _ => acc)
    []

/-- `AVAILABLE_COURSES` (chat_service.py lines 12-32), row for row. -/
def AVAILABLE_COURSES : List (List PyStr) :=
  [[pstr "Calculo 2", pstr "MAT1620"],
   [pstr "Optimización", pstr "ICS1113"],
   [pstr "Electricidad y Magnetismo", pstr "FIS1533"],
   [pstr "Termodinamica", pstr "FIS1523", pstr "IIQ1003"],
   [pstr "Programacion Avanzada", pstr "IIC2233"],
   [pstr "Probabilidades y Estadistica", pstr "EYP1113"],
   [pstr "Analisis Forense", pstr "QIM122"],
   [pstr "Biologia de la Celula", pstr "BIO141C"],
   [pstr "Introduccion a la Argumentacion", pstr "FIL2006"],
   [pstr "Tenis 1", pstr "DPT6500"],
   [pstr "Dinamica", pstr "FIS0154", pstr "ICE1514"],
   [pstr "Introduccion a la Programacion", pstr "IIC1103"],
   [pstr "Calculo 3", pstr "MAT1630"],
   [pstr "Ecuaciones Diferenciales", pstr "MAT1640"],
   [pstr "Busqueda Religiosa y Cristianismo", pstr "TTF202"],
   [pstr "Introduccion a la Economia", pstr "ICS1513"],
   [pstr "Etica para Ingenieria", pstr "ETI188"],
   [pstr "Modelos Estocasticos", pstr "ICS2123"],
   [pstr "Investigacion, Innovacion y Emprendimiento", pstr "ING2030"]]

/-- The fixed fallback answer of `process_chat` (line 87). -/
def fallback_response : PyStr :=
  pstr "No tengo información específica sobre los cursos mencionados en la base de datos."

/-- `ChatService.process_chat` (chat_service.py lines 41-101), returning
the `"response"` value of the result dict.  Parameters: `raw` the
classifier provider outcome, `docs`/`fails` the repository, `gen` the
whole `generate_response` collaborator (its own provider call included).
A classification failure re-raises; an empty retrieved context yields the
fixed fallback string without calling `gen`. -/
def process_chat (raw : Option PyStr) (docs : List CourseRec) (fails : PyStr → Bool)
    (gen : List Msg → List CourseRec → Except Unit PyStr) (messages : List Msg) :
    Except Unit PyStr :=
  match classify_relevant_courses raw AVAILABLE_COURSES with
  | .error e => .error e
  | .ok relevant_siglas =>
    let courses_context := retrieve_context docs fails relevant_siglas
    if courses_context = [] then .ok fallback_response
    else gen messages courses_context

/-- Modelled from the spec (§4.3): "locate the most recent message with
role `user` in the conversation (scanning from the end; if none exists,
use an empty string)" — stated over the chronological order as the last
element of the user-role messages. -/
def spec_most_recent_user_content (conversation : List Msg) : PyStr :=
  match (conversation.filter (fun m => m.role == pstr "user")).getLast? with
  | some m => m.content
  | none => []

/-! ## Character-level facts -/

theorem pyUpperChar_idem (c : Nat) : pyUpperChar (pyUpperChar c) = pyUpperChar c := by
  unfold pyUpperChar; split <;> (try split) <;> omega

theorem isWordChar_pyUpperChar (c : Nat) : isWordChar (pyUpperChar c) = isWordChar c := by
  unfold pyUpperChar isWordChar
  split
  · rw [Bool.eq_iff_iff]
    simp only [Bool.or_eq_true, Bool.and_eq_true, decide_eq_true_eq, beq_iff_eq]
    omega
  · rfl

theorem isPySpace_pyUpperChar (c : Nat) : isPySpace (pyUpperChar c) = isPySpace c := by
  unfold pyUpperChar isPySpace
  split
  · rw [Bool.eq_iff_iff]
    simp only [Bool.or_eq_true, beq_iff_eq]
    omega
  · rfl

theorem eq_44_of_pyUpperChar (c : Nat) (h : pyUpperChar c = 44) : c = 44 := by
  unfold pyUpperChar at h; split at h <;> omega

theorem not_isWordChar_of_isPySpace (c : Nat) (h : isPySpace c = true) :
    isWordChar c = false := by
  unfold isPySpace at h; unfold isWordChar
  simp only [Bool.or_eq_true, beq_iff_eq] at h
  simp only [Bool.or_eq_false_iff, Bool.and_eq_false_iff, decide_eq_false_iff_not, beq_eq_false_iff_ne]
  omega

/-! ## String-level helper lemmas -/

theorem mem_pyStripLeft {c : Nat} {l : PyStr} (h : c ∈ pyStripLeft l) : c ∈ l :=
  (List.dropWhile_sublist _).subset h

theorem mem_pyStripRight {c : Nat} {l : PyStr} (h : c ∈ pyStripRight l) : c ∈ l := by
  unfold pyStripRight at h
  rw [List.mem_reverse] at h
  exact List.mem_reverse.mp ((List.dropWhile_sublist _).subset h)

theorem mem_pyStrip {c : Nat} {l : PyStr} (h : c ∈ pyStrip l) : c ∈ l :=
  mem_pyStripLeft (mem_pyStripRight h)

theorem pyUpper_eq_self_iff {l : PyStr} : pyUpper l = l ↔ ∀ c ∈ l, pyUpperChar c = c := by
  unfold pyUpper
  induction l with
  | nil => simp
  | cons a l ih =>
    simp only [List.map_cons, List.cons.injEq, List.mem_cons, forall_eq_or_imp]
    exact and_congr Iff.rfl ih

theorem pyUpper_pyUpper (l : PyStr) : pyUpper (pyUpper l) = pyUpper l := by
  unfold pyUpper
  rw [List.map_map]
  exact List.map_congr_left (fun c _ => pyUpperChar_idem c)

theorem pyUpper_of_mem_all_siglas {C : PyStr} {courses : List (List PyStr)}
    (h : C ∈ all_siglas courses) : pyUpper C = C := by
  unfold all_siglas at h
  rw [List.mem_dedup, List.mem_flatMap] at h
  obtain ⟨course, -, hmem⟩ := h
  split at hmem
  · obtain ⟨y, -, rfl⟩ := List.mem_map.mp hmem
    exact pyUpper_pyUpper y
  · exact absurd hmem (List.not_mem_nil C)

theorem dropWhile_append_cons {p : Nat → Bool} {c : Nat} (hc : p c = false) (X Y : PyStr) :
    (X ++ c :: Y).dropWhile p = X.dropWhile p ++ c :: Y := by
  induction X with
  | nil => simp [List.dropWhile_cons, hc]
  | cons a X ih =>
    cases hpa : p a <;> simp [List.dropWhile_cons, hpa, ih]

theorem pyStripLeft_append_cons {c : Nat} (hc : isPySpace c = false) (X Y : PyStr) :
    pyStripLeft (X ++ c :: Y) = pyStripLeft X ++ c :: Y :=
  dropWhile_append_cons hc X Y

theorem pyStripRight_append_cons {c : Nat} (hc : isPySpace c = false) (X Y : PyStr) :
    pyStripRight (X ++ c :: Y) = X ++ c :: pyStripRight Y := by
  unfold pyStripRight
  rw [show (X ++ c :: Y).reverse = Y.reverse ++ c :: X.reverse by simp,
    dropWhile_append_cons hc]
  simp

theorem pyStrip_append_cons {c : Nat} (hc : isPySpace c = false) (X Y : PyStr) :
    pyStrip (X ++ c :: Y) = pyStripLeft X ++ c :: pyStripRight Y := by
  unfold pyStrip
  rw [pyStripLeft_append_cons hc, pyStripRight_append_cons hc]

theorem dropWhile_idem (p : Nat → Bool) (l : PyStr) :
    (l.dropWhile p).dropWhile p = l.dropWhile p := by
  induction l with
  | nil => rfl
  | cons a l ih => cases hpa : p a <;> simp [List.dropWhile_cons, hpa, ih]

theorem pyStripLeft_idem (l : PyStr) : pyStripLeft (pyStripLeft l) = pyStripLeft l :=
  dropWhile_idem _ l

theorem pyStrip_pyStripLeft (l : PyStr) : pyStrip (pyStripLeft l) = pyStrip l := by
  unfold pyStrip
  rw [pyStripLeft_idem]

theorem splitOnC_append {sep : Nat} {X : PyStr} (h : sep ∉ X) (Y : PyStr) :
    splitOnC sep (X ++ sep :: Y) = X :: splitOnC sep Y := by
  induction X with
  | nil => simp [splitOnC]
  | cons c X ih =>
    have hc : c ≠ sep := fun hcs => h (hcs ▸ List.mem_cons_self c X)
    have h' : sep ∉ X := fun hs => h (List.mem_cons_of_mem c hs)
    simp only [List.cons_append, splitOnC, beq_iff_eq, if_neg hc]
    rw [show X.append (sep :: Y) = X ++ sep :: Y from rfl, ih h']

/-! ## Token cleaning: periods and spaces are removed wholesale -/

theorem filter_keep_dropWhile {l : PyStr} {keep : Nat → Bool} (hkeep : keep 32 = false)
    (h : ∀ c ∈ l, isPySpace c = true → c = 32) :
    (l.dropWhile isPySpace).filter keep = l.filter keep := by
  induction l with
  | nil => rfl
  | cons a l ih =>
    have h' : ∀ c ∈ l, isPySpace c = true → c = 32 :=
      fun c hc => h c (List.mem_cons_of_mem a hc)
    cases hpa : isPySpace a with
    | true =>
      have ha : a = 32 := h a (List.mem_cons_self a l) hpa
      subst ha
      simp [List.dropWhile_cons, hpa, hkeep, ih h']
    | false => simp [List.dropWhile_cons, hpa]

theorem filter_keep_pyStripLeft {l : PyStr} {keep : Nat → Bool} (hkeep : keep 32 = false)
    (h : ∀ c ∈ l, isPySpace c = true → c = 32) :
    (pyStripLeft l).filter keep = l.filter keep :=
  filter_keep_dropWhile hkeep h

theorem filter_keep_pyStripRight {l : PyStr} {keep : Nat → Bool} (hkeep : keep 32 = false)
    (h : ∀ c ∈ l, isPySpace c = true → c = 32) :
    (pyStripRight l).filter keep = l.filter keep := by
  unfold pyStripRight
  rw [List.filter_reverse,
    filter_keep_dropWhile hkeep (fun c hc => h c (List.mem_reverse.mp hc)),
    ← List.filter_reverse, List.reverse_reverse]

theorem filter_keep_pyStrip {l : PyStr} {keep : Nat → Bool} (hkeep : keep 32 = false)
    (h : ∀ c ∈ l, isPySpace c = true → c = 32) :
    (pyStrip l).filter keep = l.filter keep := by
  unfold pyStrip
  rw [filter_keep_pyStripRight hkeep
      (fun c hc => h c (mem_pyStripLeft hc)),
    filter_keep_pyStripLeft hkeep h]

/-- The token-cleaning chain of the comma pass, on a token whose
characters are already uppercase and whose only whitespace is the plain
space: the `strip`s are absorbed by the two `replace`s, so the result is
exactly the token minus all its periods and spaces. -/
theorem clean_token_eq {t : PyStr} (hup : pyUpper t = t)
    (hsp : ∀ c ∈ t, isPySpace c = true → c = 32) :
    clean_token t = (t.filter (fun c => !(c == 46))).filter (fun c => !(c == 32)) := by
  unfold clean_token
  have hupS : pyUpper (pyStrip t) = pyStrip t :=
    pyUpper_eq_self_iff.mpr (fun c hc => pyUpper_eq_self_iff.mp hup c (mem_pyStrip hc))
  have hspS : ∀ c ∈ pyStrip t, isPySpace c = true → c = 32 :=
    fun c hc => hsp c (mem_pyStrip hc)
  have hkeep : (fun a => (!(a == 32)) && !(a == 46)) 32 = false := by decide
  rw [hupS, List.filter_filter, List.filter_filter,
    filter_keep_pyStrip hkeep hspS, filter_keep_pyStrip hkeep hsp]

/-- **C10**: in the comma pass each comma-separated token loses all its
periods and spaces — interior ones included — before the closed-set
membership check, so a token obtained by interleaving the characters of a
known code `C` with spaces and periods is accepted as `C`.  (`t` is the
token, placed before the first comma of the response; `C` free of commas
and whitespace, as every real course code is.)  The scan pass runs
exactly when the comma pass yields nothing, by the shape of
`extract_siglas`. -/
theorem claim10_comma_token_cleaning (courses : List (List PyStr)) (C t rest : PyStr)
    (hC : C ∈ all_siglas courses)
    (hfil : (t.filter (fun c => !(c == 46))).filter (fun c => !(c == 32)) = C)
    (hCw : ∀ c ∈ C, isPySpace c = false)
    (hC44 : 44 ∉ C) :
    C ∈ extract_siglas (t ++ 44 :: rest) courses := by
  have tchars : ∀ c ∈ t, c ∈ C ∨ c = 46 ∨ c = 32 := by
    intro c hc
    by_cases h46 : c = 46
    · exact Or.inr (Or.inl h46)
    by_cases h32 : c = 32
    · exact Or.inr (Or.inr h32)
    · left
      rw [← hfil]
      refine List.mem_filter.mpr ⟨List.mem_filter.mpr ⟨hc, ?_⟩, ?_⟩ <;> simp [h46, h32]
  have upC : ∀ c ∈ C, pyUpperChar c = c :=
    pyUpper_eq_self_iff.mp (pyUpper_of_mem_all_siglas hC)
  have upt : ∀ c ∈ t, pyUpperChar c = c := by
    intro c hc
    rcases tchars c hc with h | h | h
    · exact upC c h
    · subst h; decide
    · subst h; decide
  have hsp : ∀ c ∈ t, isPySpace c = true → c = 32 := by
    intro c hc hspc
    rcases tchars c hc with h | h | h
    · rw [hCw c h] at hspc; exact absurd hspc (by decide)
    · subst h; exact absurd hspc (by decide)
    · exact h
  have h44t : 44 ∉ t := by
    intro h44
    rcases tchars 44 h44 with h | h | h
    · exact hC44 h
    · exact absurd h (by decide)
    · exact absurd h (by decide)
  have hne : (t ++ 44 :: rest) ≠ [] := by simp
  have halls : all_siglas courses ≠ [] := List.ne_nil_of_mem hC
  have hstrip : pyStrip (t ++ 44 :: rest) = pyStripLeft t ++ 44 :: pyStripRight rest :=
    pyStrip_append_cons (by decide) t rest
  have hupL : pyUpper (pyStripLeft t) = pyStripLeft t :=
    pyUpper_eq_self_iff.mpr (fun c hc => upt c (mem_pyStripLeft hc))
  have hR : pyUpper (pyStrip (t ++ 44 :: rest))
      = pyStripLeft t ++ 44 :: pyUpper (pyStripRight rest) := by
    rw [hstrip]
    unfold pyUpper
    rw [List.map_append, List.map_cons,
      show pyUpperChar 44 = 44 from by decide]
    rw [show (pyStripLeft t).map pyUpperChar = pyStripLeft t from hupL]
  have h44L : 44 ∉ pyStripLeft t := fun h => h44t (mem_pyStripLeft h)
  have h44R : 44 ∈ pyUpper (pyStrip (t ++ 44 :: rest)) := by
    rw [hR]; exact List.mem_append_right _ (List.mem_cons_self _ _)
  have hclean : clean_token (pyStripLeft t) = C := by
    have hspL : ∀ c ∈ pyStripLeft t, isPySpace c = true → c = 32 :=
      fun c hc => hsp c (mem_pyStripLeft hc)
    rw [clean_token_eq hupL hspL, List.filter_filter,
      filter_keep_pyStripLeft (by decide) hsp, ← List.filter_filter, hfil]
  have hCmem : C ∈ comma_pass (pyUpper (pyStrip (t ++ 44 :: rest))) (all_siglas courses) := by
    unfold comma_pass
    rw [hR, splitOnC_append h44L, List.map_cons]
    exact List.mem_filter.mpr ⟨List.mem_cons.mpr (Or.inl hclean.symm), decide_eq_true hC⟩
  have hfne : comma_pass (pyUpper (pyStrip (t ++ 44 :: rest))) (all_siglas courses) ≠ [] :=
    List.ne_nil_of_mem hCmem
  simp only [extract_siglas, if_neg hne, if_neg halls, if_pos h44R, if_neg hfne]
  exact List.mem_dedup.mpr hCmem

/-- Witness for C10 at the claim's own example: token `"ICS 1113."`
(interior space and a period) against the hard-coded vocabulary, inside
the response `"ICS 1113.,OTHER"`. -/
theorem claim10_comma_token_cleaning_witness :
    pstr "ICS1113" ∈ all_siglas AVAILABLE_COURSES
      ∧ ((pstr "ICS 1113.").filter (fun c => !(c == 46))).filter (fun c => !(c == 32))
          = pstr "ICS1113"
      ∧ pstr "ICS1113" ∈
          extract_siglas (pstr "ICS 1113." ++ 44 :: pstr "OTHER") AVAILABLE_COURSES :=
  ⟨by decide, by decide,
    claim10_comma_token_cleaning AVAILABLE_COURSES (pstr "ICS1113") (pstr "ICS 1113.")
      (pstr "OTHER") (by decide) (by decide) (by decide) (by decide)⟩

/-- **C1**: whatever the raw LLM text and the vocabulary, every code in
the extraction result is a member of the closed known-code set derived
from the vocabulary; a code absent from the vocabulary never appears. -/
theorem claim1_closed_vocabulary (response : PyStr) (courses : List (List PyStr)) (s : PyStr)
    (h : s ∈ extract_siglas response courses) : s ∈ all_siglas courses := by
  simp only [extract_siglas] at h
  split at h
  · exact absurd h (List.not_mem_nil s)
  · split at h
    · exact absurd h (List.not_mem_nil s)
    · rw [List.mem_dedup] at h
      split at h
      · split at h
        · exact (List.mem_filter.mp h).1
        · exact of_decide_eq_true (List.mem_filter.mp h).2
      · split at h
        · exact (List.mem_filter.mp h).1
        · exact absurd h (List.not_mem_nil s)

/-- Witness for C1: `ICS1113` extracted from `"ICS1113,IIC2233"` is in
the known-code set of the hard-coded vocabulary. -/
theorem claim1_closed_vocabulary_witness :
    pstr "ICS1113" ∈ extract_siglas (pstr "ICS1113,IIC2233") AVAILABLE_COURSES
      ∧ pstr "ICS1113" ∈ all_siglas AVAILABLE_COURSES :=
  ⟨by decide, claim1_closed_vocabulary (pstr "ICS1113,IIC2233") AVAILABLE_COURSES
    (pstr "ICS1113") (by decide)⟩

/-- **C3**: raw output `"ICS1113,IIC2233"` against a vocabulary knowing
both codes extracts exactly `{ICS1113, IIC2233}`; raw output
`"ICS1113, FAKE999"` with `FAKE999` unknown extracts `{ICS1113}`, the
invalid code silently dropped. -/
theorem claim3_comma_path_precedence (courses : List (List PyStr))
    (hA : pstr "ICS1113" ∈ all_siglas courses)
    (hB : pstr "IIC2233" ∈ all_siglas courses)
    (hF : pstr "FAKE999" ∉ all_siglas courses) :
    (extract_siglas (pstr "ICS1113,IIC2233") courses).toFinset
        = {pstr "ICS1113", pstr "IIC2233"}
      ∧ (extract_siglas (pstr "ICS1113, FAKE999") courses).toFinset = {pstr "ICS1113"} := by
  have halls : all_siglas courses ≠ [] := List.ne_nil_of_mem hA
  constructor
  · have e1 : pyUpper (pyStrip (pstr "ICS1113,IIC2233")) = pstr "ICS1113,IIC2233" := by decide
    have e2 : (splitOnC 44 (pstr "ICS1113,IIC2233")).map clean_token
        = [pstr "ICS1113", pstr "IIC2233"] := by decide
    have hcp : comma_pass (pstr "ICS1113,IIC2233") (all_siglas courses)
        = [pstr "ICS1113", pstr "IIC2233"] := by
      unfold comma_pass
      rw [e2]
      simp [List.filter_cons, List.filter_nil, decide_eq_true hA, decide_eq_true hB]
    simp only [extract_siglas, e1, if_neg (show pstr "ICS1113,IIC2233" ≠ [] by decide),
      if_neg halls, if_pos (show (44 : Nat) ∈ pstr "ICS1113,IIC2233" by decide), hcp]
    rw [if_neg (show [pstr "ICS1113", pstr "IIC2233"] ≠ [] by decide)]
    decide
  · have e1 : pyUpper (pyStrip (pstr "ICS1113, FAKE999")) = pstr "ICS1113, FAKE999" := by
      decide
    have e2 : (splitOnC 44 (pstr "ICS1113, FAKE999")).map clean_token
        = [pstr "ICS1113", pstr "FAKE999"] := by decide
    have hcp : comma_pass (pstr "ICS1113, FAKE999") (all_siglas courses)
        = [pstr "ICS1113"] := by
      unfold comma_pass
      rw [e2]
      simp [List.filter_cons, List.filter_nil, decide_eq_true hA, decide_eq_false hF]
    simp only [extract_siglas, e1, if_neg (show pstr "ICS1113, FAKE999" ≠ [] by decide),
      if_neg halls, if_pos (show (44 : Nat) ∈ pstr "ICS1113, FAKE999" by decide), hcp]
    rw [if_neg (show [pstr "ICS1113"] ≠ [] by decide)]
    decide

/-- Witness for C3 at the hard-coded vocabulary of `chat_service.py`. -/
theorem claim3_comma_path_precedence_witness :
    (pstr "ICS1113" ∈ all_siglas AVAILABLE_COURSES
        ∧ pstr "IIC2233" ∈ all_siglas AVAILABLE_COURSES
        ∧ pstr "FAKE999" ∉ all_siglas AVAILABLE_COURSES)
      ∧ (extract_siglas (pstr "ICS1113,IIC2233") AVAILABLE_COURSES).toFinset
          = {pstr "ICS1113", pstr "IIC2233"}
      ∧ (extract_siglas (pstr "ICS1113, FAKE999") AVAILABLE_COURSES).toFinset
          = {pstr "ICS1113"} :=
  ⟨⟨by decide, by decide, by decide⟩,
    claim3_comma_path_precedence AVAILABLE_COURSES (by decide) (by decide) (by decide)⟩

/-! ## Retrieval: per-code isolation and cap -/

/-- The retrieval loop as a whole: the context is the concatenation, in
code order, of the capped lookup results of exactly the codes whose
lookup did not fail. -/
theorem retrieve_context_eq (docs : List CourseRec) (fails : PyStr → Bool)
    (siglas : List PyStr) :
    retrieve_context docs fails siglas
      = ((siglas.filter (fun s => !(fails s))).map
          (fun s => find_many docs s (some 5))).flatten := by
  unfold retrieve_context
  suffices h : ∀ (sig : List PyStr) (acc : List CourseRec),
      sig.foldl (fun acc sigla =>
        match get_courses_by_course_code docs fails sigla (some 5) with
        | .ok courses => acc ++ courses
        | .error _ => acc) acc
        = acc ++ ((sig.filter (fun s => !(fails s))).map
            (fun s => find_many docs s (some 5))).flatten by
    rw [h siglas []]; rfl
  have step_eq : ∀ (acc : List CourseRec) (s : PyStr),
      (match get_courses_by_course_code docs fails s (some 5) with
        | .ok courses => acc ++ courses
        | .error _ => acc)
        = if fails s then acc else acc ++ find_many docs s (some 5) := by
    intro acc s
    unfold get_courses_by_course_code
    cases hf : fails s <;> simp [hf]
  intro sig
  induction sig with
  | nil => intro acc; simp
  | cons s rest ih =>
    intro acc
    rw [List.foldl_cons, step_eq, List.filter_cons]
    cases hf : fails s with
    | true => simp [hf, ih]
    | false => simp [hf, ih, List.append_assoc]

/-- **C6**: the context is assembled from per-code blocks, and no block —
hence no single code — ever contributes more than 5 records, whatever the
repository holds. -/
theorem claim6_per_code_cap (docs : List CourseRec) (fails : PyStr → Bool)
    (siglas : List PyStr) :
    retrieve_context docs fails siglas
        = ((siglas.filter (fun s => !(fails s))).map
            (fun s => find_many docs s (some 5))).flatten
      ∧ ∀ s : PyStr, (find_many docs s (some 5)).length ≤ 5 := by
  refine ⟨retrieve_context_eq docs fails siglas, fun s => ?_⟩
  unfold find_many
  simp only [if_neg (by omega : ¬(5 : Nat) = 0)]
  exact List.length_take_le 5 _

/-- **C5**: with a failing lookup for `A` and a successful one for `B`,
the final context is exactly `B`'s capped record list: the `A` exception
is absorbed by the loop (`retrieve_context` is total) and no `B` record
is lost. -/
theorem claim5_retrieval_isolation (docs : List CourseRec) (fails : PyStr → Bool)
    (A B : PyStr) (hA : fails A = true) (hB : fails B = false) :
    retrieve_context docs fails [A, B] = find_many docs B (some 5) := by
  unfold retrieve_context get_courses_by_course_code
  simp [hA, hB]

/-- Witness for C5: lookup of `ICS1113` fails, lookup of `IIC2233`
returns the two stored `IIC2233` records. -/
theorem claim5_retrieval_isolation_witness :
    (fun s => s == pstr "ICS1113") (pstr "ICS1113") = true
      ∧ (fun s => s == pstr "ICS1113") (pstr "IIC2233") = false
      ∧ retrieve_context [⟨pstr "IIC2233", 0⟩, ⟨pstr "IIC2233", 1⟩]
          (fun s => s == pstr "ICS1113") [pstr "ICS1113", pstr "IIC2233"]
          = find_many [⟨pstr "IIC2233", 0⟩, ⟨pstr "IIC2233", 1⟩] (pstr "IIC2233") (some 5) :=
  ⟨by decide, by decide,
    claim5_retrieval_isolation [⟨pstr "IIC2233", 0⟩, ⟨pstr "IIC2233", 1⟩]
      (fun s => s == pstr "ICS1113") (pstr "ICS1113") (pstr "IIC2233")
      (by decide) (by decide)⟩

/-! ## Orchestrator: fallback, failure propagation, short-circuit -/

/-- **C2**: whenever classification succeeds and retrieval produces an
empty context, `process_chat` answers with the fixed fallback string
verbatim — for every Answer-Generator collaborator `gen`, so the
generator's behaviour never enters the result: it is not invoked. -/
theorem claim2_fallback_determinism (raw : Option PyStr) (docs : List CourseRec)
    (fails : PyStr → Bool) (gen : List Msg → List CourseRec → Except Unit PyStr)
    (messages : List Msg) (siglas : List PyStr)
    (hclass : classify_relevant_courses raw AVAILABLE_COURSES = .ok siglas)
    (hempty : retrieve_context docs fails siglas = []) :
    process_chat raw docs fails gen messages = .ok fallback_response := by
  unfold process_chat
  rw [hclass]
  simp [hempty]

/-- Witness for C2: classifier text `"NONE"` yields no codes, so the
pipeline returns the fallback even under a generator that would fail if
it were ever called. -/
theorem claim2_fallback_determinism_witness :
    classify_relevant_courses (some (pstr "NONE")) AVAILABLE_COURSES = .ok []
      ∧ process_chat (some (pstr "NONE")) [] (fun _ => false)
          (fun _ _ => .error ()) [] = .ok fallback_response :=
  ⟨by rfl, claim2_fallback_determinism (some (pstr "NONE")) [] (fun _ => false)
    (fun _ _ => .error ()) [] [] (by rfl) (by decide)⟩

/-- **C7**: a provider response with no usable text (missing text field,
or empty/all-whitespace string) makes the LLM helper raise, and the
failure propagates unhandled — and unretried — through the classifier
stage out of `process_chat`. -/
theorem claim7_empty_llm_raises (raw : Option PyStr) (docs : List CourseRec)
    (fails : PyStr → Bool) (gen : List Msg → List CourseRec → Except Unit PyStr)
    (messages : List Msg)
    (h : raw = none ∨ ∃ t, raw = some t ∧ pyStrip t = []) :
    generate_text raw = .error ()
      ∧ process_chat raw docs fails gen messages = .error () := by
  have hgt : generate_text raw = .error () := by
    rcases h with rfl | ⟨t, rfl, ht⟩
    · rfl
    · show (if t = [] ∨ pyStrip t = [] then Except.error () else Except.ok (pyStrip t))
          = Except.error ()
      rw [if_pos (Or.inr ht)]
  refine ⟨hgt, ?_⟩
  unfold process_chat classify_relevant_courses
  rw [hgt]

/-- Witness for C7 at the all-whitespace provider response `"   "`. -/
theorem claim7_empty_llm_raises_witness :
    generate_text (some (pstr "   ")) = .error ()
      ∧ process_chat (some (pstr "   ")) [] (fun _ => false)
          (fun _ _ => .ok []) [] = .error () :=
  claim7_empty_llm_raises (some (pstr "   ")) [] (fun _ => false) (fun _ _ => .ok []) []
    (Or.inr ⟨pstr "   ", rfl, by decide⟩)

/-- **C8, counterexample**: with raw classifier LLM output `""` the
pipeline does *not* return the fallback string — `_generate_text` raises
on the empty text, and `process_chat` propagates the error. -/
theorem claim8_counterexample_empty_output :
    process_chat (some []) [] (fun _ => false) (fun _ _ => Except.ok []) [] = .error ()
      ∧ process_chat (some []) [] (fun _ => false) (fun _ _ => Except.ok []) []
          ≠ .ok fallback_response := by
  refine ⟨rfl, fun h => ?_⟩
  rw [show process_chat (some []) [] (fun _ => false) (fun _ _ => Except.ok []) []
      = Except.error () from rfl] at h
  exact Except.noConfusion h

/-- **C8, amended**: an empty raw output makes the pipeline fail (see the
counterexample); the short-circuit chain holds instead for any raw output
that is non-empty after trimming but yields no vocabulary code: the
classification result is the empty set, the retriever returns the empty
sequence for the empty set — for every repository, i.e. without
contacting it — and the orchestrator returns the fallback string without
invoking the Answer Generator (`gen` universally quantified). -/
theorem claim8_empty_classification_short_circuit (raw : PyStr) (docs : List CourseRec)
    (fails : PyStr → Bool) (gen : List Msg → List CourseRec → Except Unit PyStr)
    (messages : List Msg)
    (hne : pyStrip raw ≠ [])
    (hex : extract_siglas (pyStrip raw) AVAILABLE_COURSES = []) :
    classify_relevant_courses (some raw) AVAILABLE_COURSES = .ok []
      ∧ retrieve_context docs fails [] = []
      ∧ process_chat (some raw) docs fails gen messages = .ok fallback_response := by
  have hrne : raw ≠ [] := fun h => hne (by rw [h]; rfl)
  have hgt : generate_text (some raw) = .ok (pyStrip raw) := by
    show (if raw = [] ∨ pyStrip raw = [] then Except.error () else Except.ok (pyStrip raw))
        = Except.ok (pyStrip raw)
    rw [if_neg (not_or.mpr ⟨hrne, hne⟩)]
  have hclass : classify_relevant_courses (some raw) AVAILABLE_COURSES = .ok [] := by
    unfold classify_relevant_courses
    rw [hgt]
    show Except.ok (extract_siglas (pyStrip raw) AVAILABLE_COURSES) = Except.ok ([] : List PyStr)
    rw [hex]
  refine ⟨hclass, rfl, ?_⟩
  unfold process_chat
  rw [hclass]
  simp [retrieve_context]

/-- Witness for the amended C8 at raw output `"NONE"`. -/
theorem claim8_empty_classification_short_circuit_witness :
    pyStrip (pstr "NONE") ≠ []
      ∧ extract_siglas (pyStrip (pstr "NONE")) AVAILABLE_COURSES = []
      ∧ (classify_relevant_courses (some (pstr "NONE")) AVAILABLE_COURSES = .ok []
          ∧ retrieve_context [⟨pstr "IIC2233", 0⟩] (fun _ => true) [] = []
          ∧ process_chat (some (pstr "NONE")) [⟨pstr "IIC2233", 0⟩] (fun _ => true)
              (fun _ _ => .error ()) [] = .ok fallback_response) :=
  ⟨by decide, by decide,
    claim8_empty_classification_short_circuit (pstr "NONE") [⟨pstr "IIC2233", 0⟩]
      (fun _ => true) (fun _ _ => .error ()) [] (by decide) (by decide)⟩

/-! ## Answer-generation prompt: the question to answer -/

theorem reverse_find?_eq_getLast?_filter {α : Type} (p : α → Bool) (l : List α) :
    l.reverse.find? p = (l.filter p).getLast? := by
  induction l using List.reverseRecOn with
  | nil => rfl
  | append_singleton l a ih =>
    have hrev : (l ++ [a]).reverse = a :: l.reverse := by simp
    rw [hrev, List.filter_append]
    cases hpa : p a with
    | true =>
      rw [List.find?_cons_of_pos _ hpa]
      have hfa : List.filter p [a] = [a] := by simp [List.filter_cons, hpa]
      rw [hfa, List.getLast?_concat]
    | false =>
      have hneg : ¬ p a = true := by simp [hpa]
      rw [List.find?_cons_of_neg _ hneg, ih]
      have hfa : List.filter p [a] = [] := by simp [List.filter_cons, hpa]
      rw [hfa, List.append_nil]

/-- The source's backwards scan agrees with the spec's description: it
picks the chronologically last user-role message, or the empty string. -/
theorem last_user_message_eq_spec (conversation : List Msg) :
    last_user_message conversation = spec_most_recent_user_content conversation := by
  unfold last_user_message spec_most_recent_user_content
  rw [reverse_find?_eq_getLast?_filter]

/-- **C9**: the RAG prompt embeds, between the fixed template pieces, the
content of the most recent message whose role is `user` (the empty string
when there is none) as the question to answer. -/
theorem claim9_prompt_embeds_last_user_question (courses_context_text : PyStr)
    (conversation : List Msg) :
    gen_prompt courses_context_text conversation
      = genPromptPre ++ courses_context_text ++ genPromptMid
          ++ spec_most_recent_user_content conversation ++ genPromptPost := by
  unfold gen_prompt
  rw [last_user_message_eq_spec]

/-! ## Whole-word search: transport along strip and upper -/

theorem wordSearch_eq_true_iff (pat text : PyStr) :
    wordSearch pat text = true
      ↔ ∃ i, i ≤ text.length ∧ matchAt pat text i = true
          ∧ boundaryAt text i = true ∧ boundaryAt text (i + pat.length) = true := by
  unfold wordSearch
  rw [List.any_eq_true]
  constructor
  · rintro ⟨i, hmem, hcond⟩
    rw [List.mem_range] at hmem
    simp only [Bool.and_eq_true] at hcond
    exact ⟨i, Nat.lt_succ_iff.mp hmem, hcond.1.1, hcond.1.2, hcond.2⟩
  · rintro ⟨i, hle, h1, h2, h3⟩
    exact ⟨i, List.mem_range.mpr (Nat.lt_succ_of_le hle), by simp [h1, h2, h3]⟩

theorem matchAt_iff (pat text : PyStr) (i : Nat) :
    matchAt pat text i = true
      ↔ i + pat.length ≤ text.length
        ∧ ∀ j < pat.length, text.getD (i + j) 0 = pat.getD j 0 := by
  unfold matchAt
  rw [Bool.and_eq_true, decide_eq_true_iff, List.all_eq_true]
  constructor
  · rintro ⟨hlen, hpt⟩
    exact ⟨hlen, fun j hj => beq_iff_eq.mp (hpt j (List.mem_range.mpr hj))⟩
  · rintro ⟨hlen, hpt⟩
    exact ⟨hlen, fun j hj => beq_iff_eq.mpr (hpt j (List.mem_range.mp hj))⟩

theorem wordSearch_nil {pat : PyStr} (h : pat ≠ []) : wordSearch pat [] = false := by
  by_contra hcon
  rw [Bool.not_eq_false, wordSearch_eq_true_iff] at hcon
  obtain ⟨i, -, hm, -, -⟩ := hcon
  rw [matchAt_iff] at hm
  have hlen := hm.1
  simp only [List.length_nil] at hlen
  exact h (List.eq_nil_of_length_eq_zero (by omega))

theorem getD_pyUpper (l : PyStr) (i : Nat) :
    (pyUpper l).getD i 0 = pyUpperChar (l.getD i 0) := by
  unfold pyUpper
  rcases Nat.lt_or_ge i l.length with h | h
  · rw [List.getD_eq_getElem _ _ (by simpa using h), List.getD_eq_getElem _ _ h,
      List.getElem_map]
  · rw [List.getD_eq_default _ _ (by simpa using h), List.getD_eq_default _ _ h]
    decide

theorem wAt_pyUpper (l : PyStr) (i : Nat) : wAt (pyUpper l) i = wAt l i := by
  unfold wAt
  rw [getD_pyUpper, isWordChar_pyUpperChar]

theorem boundaryAt_pyUpper (l : PyStr) (p : Nat) :
    boundaryAt (pyUpper l) p = boundaryAt l p := by
  unfold boundaryAt
  rw [wAt_pyUpper, wAt_pyUpper]

theorem getD_mem_of_lt {pat : PyStr} {j : Nat} (hj : j < pat.length) :
    pat.getD j 0 ∈ pat := by
  rw [List.getD_eq_getElem _ _ hj]
  exact List.getElem_mem _

theorem matchAt_pyUpper {pat l : PyStr} {i : Nat} (hup : pyUpper pat = pat)
    (h : matchAt pat l i = true) : matchAt pat (pyUpper l) i = true := by
  rw [matchAt_iff] at h ⊢
  obtain ⟨hlen, hpt⟩ := h
  refine ⟨by simpa [pyUpper] using hlen, fun j hj => ?_⟩
  rw [getD_pyUpper, hpt j hj]
  exact pyUpper_eq_self_iff.mp hup _ (getD_mem_of_lt hj)

theorem wordSearch_pyUpper {pat l : PyStr} (hup : pyUpper pat = pat)
    (h : wordSearch pat l = true) : wordSearch pat (pyUpper l) = true := by
  rw [wordSearch_eq_true_iff] at h ⊢
  obtain ⟨i, hile, hm, hb1, hb2⟩ := h
  exact ⟨i, by simpa [pyUpper] using hile, matchAt_pyUpper hup hm,
    by rw [boundaryAt_pyUpper]; exact hb1, by rw [boundaryAt_pyUpper]; exact hb2⟩

theorem boundaryAt_cons_succ {c : Nat} {l : PyStr} (hcw : isWordChar c = false) (p : Nat) :
    boundaryAt (c :: l) (p + 1) = boundaryAt l p := by
  cases p with
  | zero =>
    unfold boundaryAt wAt
    simp [List.getD_cons_zero, List.getD_cons_succ, hcw]
  | succ q =>
    unfold boundaryAt wAt
    simp only [Nat.succ_ne_zero, if_false, Nat.add_sub_cancel, List.getD_cons_succ]

theorem matchAt_cons_succ (pat : PyStr) (c : Nat) (l : PyStr) (i : Nat) :
    matchAt pat (c :: l) (i + 1) = matchAt pat l i := by
  rw [Bool.eq_iff_iff, matchAt_iff, matchAt_iff]
  constructor
  · rintro ⟨hlen, hpt⟩
    refine ⟨by simp only [List.length_cons] at hlen; omega, fun j hj => ?_⟩
    have h := hpt j hj
    rwa [show i + 1 + j = (i + j) + 1 from by omega, List.getD_cons_succ] at h
  · rintro ⟨hlen, hpt⟩
    refine ⟨by simp only [List.length_cons]; omega, fun j hj => ?_⟩
    rw [show i + 1 + j = (i + j) + 1 from by omega, List.getD_cons_succ]
    exact hpt j hj

theorem wordSearch_cons_of_space {pat : PyStr} {c : Nat} {l : PyStr}
    (hc : isPySpace c = true) (hne : pat ≠ [])
    (hword : ∀ x ∈ pat, isWordChar x = true)
    (h : wordSearch pat (c :: l) = true) : wordSearch pat l = true := by
  rw [wordSearch_eq_true_iff] at h ⊢
  obtain ⟨i, hile, hm, hb1, hb2⟩ := h
  have hcw : isWordChar c = false := not_isWordChar_of_isPySpace c hc
  have hn : 0 < pat.length := List.length_pos.mpr hne
  have hi0 : i ≠ 0 := by
    intro h0
    subst h0
    rw [matchAt_iff] at hm
    have hfst := hm.2 0 hn
    rw [Nat.add_zero, List.getD_cons_zero] at hfst
    have hw := hword _ (getD_mem_of_lt hn)
    rw [← hfst, hcw] at hw
    exact Bool.false_ne_true hw
  obtain ⟨j, rfl⟩ : ∃ j, i = j + 1 := ⟨i - 1, by omega⟩
  refine ⟨j, by simp only [List.length_cons] at hile; omega, ?_, ?_, ?_⟩
  · rwa [matchAt_cons_succ] at hm
  · rwa [boundaryAt_cons_succ hcw] at hb1
  · rw [show j + 1 + pat.length = (j + pat.length) + 1 from by omega,
      boundaryAt_cons_succ hcw] at hb2
    exact hb2

theorem wAt_concat_nonword {c : Nat} {l : PyStr} (hcw : isWordChar c = false) (k : Nat) :
    wAt (l ++ [c]) k = wAt l k := by
  unfold wAt
  rcases Nat.lt_or_ge k l.length with h | h
  · rw [List.getD_append _ _ _ _ h]
  · rw [List.getD_append_right _ _ _ _ h, List.getD_eq_default _ _ h]
    rcases Nat.eq_or_lt_of_le h with heq | hlt
    · rw [← heq, Nat.sub_self, List.getD_cons_zero, hcw]
      decide
    · rw [List.getD_eq_default _ _ (by simp only [List.length_cons, List.length_nil]; omega)]

theorem boundaryAt_concat_nonword {c : Nat} {l : PyStr} (hcw : isWordChar c = false) (p : Nat) :
    boundaryAt (l ++ [c]) p = boundaryAt l p := by
  unfold boundaryAt
  rw [wAt_concat_nonword hcw, wAt_concat_nonword hcw]

theorem wordSearch_concat_of_space {pat : PyStr} {c : Nat} {l : PyStr}
    (hc : isPySpace c = true) (hne : pat ≠ [])
    (hword : ∀ x ∈ pat, isWordChar x = true)
    (h : wordSearch pat (l ++ [c]) = true) : wordSearch pat l = true := by
  rw [wordSearch_eq_true_iff] at h ⊢
  obtain ⟨i, hile, hm, hb1, hb2⟩ := h
  have hcw : isWordChar c = false := not_isWordChar_of_isPySpace c hc
  have hn : 0 < pat.length := List.length_pos.mpr hne
  rw [matchAt_iff] at hm
  obtain ⟨hlen, hpt⟩ := hm
  have hlast : i + pat.length ≤ l.length := by
    by_contra hgt
    have hlen' : i + pat.length = l.length + 1 := by
      simp only [List.length_append, List.length_cons, List.length_nil] at hlen
      omega
    have hj : pat.length - 1 < pat.length := by omega
    have hc' := hpt (pat.length - 1) hj
    rw [show i + (pat.length - 1) = l.length from by omega,
      List.getD_append_right _ _ _ _ (Nat.le_refl _), Nat.sub_self,
      List.getD_cons_zero] at hc'
    have hw := hword _ (getD_mem_of_lt hj)
    rw [← hc', hcw] at hw
    exact Bool.false_ne_true hw
  refine ⟨i, by omega, ?_, ?_, ?_⟩
  · rw [matchAt_iff]
    refine ⟨hlast, fun j hj => ?_⟩
    have h' := hpt j hj
    rwa [List.getD_append _ _ _ _ (by omega)] at h'
  · rw [← boundaryAt_concat_nonword hcw]
    exact hb1
  · rw [← boundaryAt_concat_nonword hcw]
    exact hb2

theorem wordSearch_pyStripLeft {pat : PyStr} (hne : pat ≠ [])
    (hword : ∀ x ∈ pat, isWordChar x = true) :
    ∀ l : PyStr, wordSearch pat l = true → wordSearch pat (pyStripLeft l) = true := by
  intro l
  induction l with
  | nil => exact fun h => h
  | cons c l ih =>
    intro h
    unfold pyStripLeft
    rw [List.dropWhile_cons]
    cases hc : isPySpace c with
    | true =>
      simp only [if_pos rfl]
      exact ih (wordSearch_cons_of_space hc hne hword h)
    | false =>
      simp only [Bool.false_eq_true, if_false]
      exact h

theorem wordSearch_pyStripRight {pat : PyStr} (hne : pat ≠ [])
    (hword : ∀ x ∈ pat, isWordChar x = true) :
    ∀ l : PyStr, wordSearch pat l = true → wordSearch pat (pyStripRight l) = true := by
  intro l
  induction l using List.reverseRecOn with
  | nil => exact fun h => h
  | append_singleton l c ih =>
    intro h
    cases hc : isPySpace c with
    | true =>
      have hps : pyStripRight (l ++ [c]) = pyStripRight l := by
        unfold pyStripRight
        rw [show (l ++ [c]).reverse = c :: l.reverse from by simp, List.dropWhile_cons]
        simp [hc]
      rw [hps]
      exact ih (wordSearch_concat_of_space hc hne hword h)
    | false =>
      have hps : pyStripRight (l ++ [c]) = l ++ [c] := by
        unfold pyStripRight
        rw [show (l ++ [c]).reverse = c :: l.reverse from by simp, List.dropWhile_cons]
        simp [hc]
      rw [hps]
      exact h

/-- **C4**: on a comma-free raw output in which a known (non-empty,
word-character) code occurs as a whole-word match, the extraction result
contains that code; with no comma the comma pass yields nothing, so by
the shape of `extract_siglas` the whole-word scan runs — exactly the
"scan iff comma pass found nothing" discipline. -/
theorem claim4_fallback_to_scan (courses : List (List PyStr)) (C raw : PyStr)
    (hC : C ∈ all_siglas courses)
    (hne : C ≠ [])
    (hword : ∀ x ∈ C, isWordChar x = true)
    (hcomma : 44 ∉ raw)
    (hocc : wordSearch C raw = true) :
    C ∈ extract_siglas raw courses := by
  have hrawne : raw ≠ [] := by
    intro h0
    subst h0
    rw [wordSearch_nil hne] at hocc
    exact Bool.false_ne_true hocc
  have halls : all_siglas courses ≠ [] := List.ne_nil_of_mem hC
  have hup : pyUpper C = C := pyUpper_of_mem_all_siglas hC
  have hoccR : wordSearch C (pyUpper (pyStrip raw)) = true := by
    apply wordSearch_pyUpper hup
    unfold pyStrip
    exact wordSearch_pyStripRight hne hword _ (wordSearch_pyStripLeft hne hword _ hocc)
  have h44R : (44 : Nat) ∉ pyUpper (pyStrip raw) := by
    intro hmem
    obtain ⟨c, hcmem, hcu⟩ := List.mem_map.mp hmem
    exact hcomma ((eq_44_of_pyUpperChar c hcu) ▸ mem_pyStrip hcmem)
  simp only [extract_siglas, if_neg hrawne, if_neg halls, if_neg h44R, if_pos trivial]
  exact List.mem_dedup.mpr (List.mem_filter.mpr ⟨hC, hoccR⟩)

/-- Witness for C4 at the claim's own example: the comma-free raw output
`"The relevant course is ICS1113 based on..."` scanned against the
hard-coded vocabulary. -/
theorem claim4_fallback_to_scan_witness :
    (pstr "ICS1113" ∈ all_siglas AVAILABLE_COURSES
        ∧ (44 : Nat) ∉ pstr "The relevant course is ICS1113 based on..."
        ∧ wordSearch (pstr "ICS1113") (pstr "The relevant course is ICS1113 based on...")
            = true)
      ∧ pstr "ICS1113"
          ∈ extract_siglas (pstr "The relevant course is ICS1113 based on...")
              AVAILABLE_COURSES :=
  ⟨⟨by decide, by decide, by decide⟩,
    claim4_fallback_to_scan AVAILABLE_COURSES (pstr "ICS1113")
      (pstr "The relevant course is ICS1113 based on...")
      (by decide) (by decide) (by decide) (by decide) (by decide)⟩
